import Mathlib

/-!
Verification of the sentence-level TTS playback core of the epub-audiobook
application: the sentence segmenter (splitIntoSentences), the playback engine
(class TTSEngine in src/lib/tts-engine.ts) and the chapter auto-advance logic
of the ReaderAudioBar component (src/components/LibraryScreen.tsx).

Modelling choices:
  - Strings are modelled as List Char (Unicode scalar values); all inputs of
    interest are ASCII, where JS UTF-16 code-unit indexing agrees.
  - The SpeechSynthesis provider handle (field synth, which is either the
    window speechSynthesis object or null) is modelled as a Bool flag.
  - Each engine method or provider callback is a function from engine state to
    a StepOut record: the new state, the callback events fired synchronously
    during the call, and the requests issued to the provider (speak, cancel,
    pause, resume).
  - Voice selection and the rate/pitch knobs are omitted: no claim under
    consideration mentions them, and rate/pitch are floating point.
-/

/-- Characters treated as sentence-ending punctuation by the regex
character class of splitIntoSentences. -/
def isSentenceTerminal (c : Char) : Bool :=
  c == '.' || c == '!' || c == '?'

/-- The character class matched by the JavaScript regex token backslash-s and
removed by String.prototype.trim: WhiteSpace and LineTerminator code points. -/
def isJsWhitespace (c : Char) : Bool :=
  let n := c.toNat
  n == 0x9 || n == 0xA || n == 0xB || n == 0xC || n == 0xD || n == 0x20 ||
  n == 0xA0 || n == 0x1680 || (decide (0x2000 ≤ n) && decide (n ≤ 0x200A)) ||
  n == 0x2028 || n == 0x2029 || n == 0x202F || n == 0x205F || n == 0x3000 ||
  n == 0xFEFF

/-- JavaScript String.prototype.trim on a list of characters: drop whitespace
from the front, then from the back. -/
def jsTrim (s : List Char) : List Char :=
  List.rdropWhile isJsWhitespace (List.dropWhile isJsWhitespace s)

/-- All matches of the global regex of splitIntoSentences, namely
a run of non-terminal characters, then one or more terminal punctuation
characters, then zero or more whitespace characters.  Successive matches of
this regex are contiguous from position 0 whenever a terminal character
remains, so global matching is the following left-to-right scan.  The fuel
argument bounds the recursion; each step consumes at least one character, so
fuel equal to the length of the input is always enough. -/
def rawMatchesFuel : Nat → List Char → List (List Char)
  | 0, _ => []
  | fuel + 1, s =>
    if s.any isSentenceTerminal then
      let pre := s.takeWhile (fun c => !isSentenceTerminal c)
      let rest := s.dropWhile (fun c => !isSentenceTerminal c)
      let punct := rest.takeWhile isSentenceTerminal
      let afterPunct := rest.dropWhile isSentenceTerminal
      let ws := afterPunct.takeWhile isJsWhitespace
      let tail := afterPunct.dropWhile isJsWhitespace
      (pre ++ punct ++ ws) :: rawMatchesFuel fuel tail
    else []

/-- Matches of the sentence regex against the whole input. -/
def rawMatches (s : List Char) : List (List Char) :=
  rawMatchesFuel s.length s

/-- Direct model of splitIntoSentences (src/lib/tts-engine.ts, lines 29-48):
empty or whitespace-only text gives no sentences; if the regex finds no match
the whole trimmed text is one sentence; otherwise the trimmed matches are the
sentences, with any text left over after the matched prefix appended as a
final trimmed sentence. -/
def splitIntoSentences (text : List Char) : List (List Char) :=
  if jsTrim text = [] then []
  else
    let raw := rawMatches text
    if raw = [] then [jsTrim text]
    else
      let joined := raw.flatten
      let remainder := jsTrim (text.drop joined.length)
      let sentences := (raw.map jsTrim).filter (fun s => !s.isEmpty)
      if remainder = [] then sentences else sentences ++ [remainder]

/-- Scanner for the segmentation heuristic as worded in the specification:
find the earliest maximal run of terminal punctuation that is followed by a
whitespace character; the text up to and including that run is one sentence
part, and the rest (starting at the whitespace) is returned for further
scanning.  Returns none when no terminal run is followed by whitespace. -/
def specScanFuel : Nat → List Char → Option (List Char × List Char)
  | 0, _ => none
  | fuel + 1, s =>
    let pre := s.takeWhile (fun c => !isSentenceTerminal c)
    let rest := s.dropWhile (fun c => !isSentenceTerminal c)
    match rest with
    | [] => none
    | _ :: _ =>
      let punct := rest.takeWhile isSentenceTerminal
      let afterPunct := rest.dropWhile isSentenceTerminal
      match afterPunct with
      | [] => none
      | c :: _ =>
        if isJsWhitespace c then some (pre ++ punct, afterPunct)
        else
          match specScanFuel fuel afterPunct with
          | some (more, rest2) => some (pre ++ punct ++ more, rest2)
          | none => none

/-- Segmentation described by the specification words, used to compare the
code against the claimed heuristic: each run of characters terminated by one
or more of period, exclamation or question mark followed by whitespace is one
sentence (terminal punctuation included); trailing text with no such
terminator becomes one final sentence; whitespace-only text yields nothing. -/
def specSegmentFuel : Nat → List Char → List (List Char)
  | 0, _ => []
  | fuel + 1, s =>
    match specScanFuel (s.length + 1) s with
    | some (sent, rest) => jsTrim sent :: specSegmentFuel fuel rest
    | none => if jsTrim s = [] then [] else [jsTrim s]

/-- Entry point of the specification-worded segmenter. -/
def specSegment (s : List Char) : List (List Char) :=
  specSegmentFuel (s.length + 1) s

/-- Segmenter stated in the words of the amended claim: scan the text for
runs terminated by one or more of the terminal punctuation characters
followed by ZERO or more whitespace characters; each such run, trimmed, is
one sentence; any trailing text with no terminal punctuation becomes one
final trimmed sentence; empty and whitespace-only input (or trailing text)
yield no sentence.  The fuel argument bounds the recursion; each run
consumes at least its punctuation, so length plus one always suffices. -/
def amendedSegmentFuel : Nat → List Char → List (List Char)
  | 0, _ => []
  | fuel + 1, s =>
    let pre := s.takeWhile (fun c => !isSentenceTerminal c)
    let rest := s.dropWhile (fun c => !isSentenceTerminal c)
    match rest with
    | [] => if jsTrim s = [] then [] else [jsTrim s]
    | _ :: _ =>
      let punct := rest.takeWhile isSentenceTerminal
      let afterPunct := rest.dropWhile isSentenceTerminal
      let ws := afterPunct.takeWhile isJsWhitespace
      let tail := afterPunct.dropWhile isJsWhitespace
      jsTrim (pre ++ punct ++ ws) :: amendedSegmentFuel fuel tail

/-- Entry point of the amended-words segmenter. -/
def amendedSegment (s : List Char) : List (List Char) :=
  amendedSegmentFuel (s.length + 1) s

/-- Callback events fired by the engine (interface TTSCallbacks). -/
inductive TTSEvent where
  | onStart (sentenceIndex : Nat)
  | onEnd
  | onPause
  | onResume
  | onBoundary (charIndex charLength : Nat) (word : List Char)
  | onError (message : List Char)
  | onSentenceChange (sentenceIndex : Nat)
deriving DecidableEq

/-- Requests the engine issues to the speech synthesis provider. -/
inductive ProviderRequest where
  | speak (text : List Char)
  | cancel
  | pauseCurrent
  | resumeCurrent
deriving DecidableEq

/-- Mutable state of class TTSEngine: provider availability, the sentence
queue, the current index and the two playback flags. -/
structure TTSEngine where
  synth : Bool
  sentences : List (List Char)
  currentIndex : Nat
  isPlaying : Bool
  isPaused : Bool
deriving DecidableEq

/-- Result of one engine method call or provider callback: the state after
the call, the callbacks fired during it, and the provider requests issued. -/
structure StepOut where
  state : TTSEngine
  events : List TTSEvent
  effects : List ProviderRequest
deriving DecidableEq

/-- Position record returned by getCurrentPosition. -/
structure TTSPosition where
  sentenceIndex : Nat
  totalSentences : Nat
  charIndex : Nat
deriving DecidableEq

/-- The error message reported when speech synthesis is unavailable. -/
def unsupportedMessage : List Char := "Speech synthesis not supported".toList

/-- The provider error reason produced by cancellation. -/
def canceledReason : List Char := "canceled".toList

/-- The boundary event name for word boundaries. -/
def wordBoundaryName : List Char := "word".toList

/-- Engine state as built by the constructor: empty queue, index 0, not
playing, not paused; synth records whether window.speechSynthesis exists. -/
def TTSEngine.init (synthAvailable : Bool) : TTSEngine :=
  { synth := synthAvailable, sentences := [], currentIndex := 0,
    isPlaying := false, isPaused := false }

/-- Model of TTSEngine.stop (lines 160-166): no-op without a provider;
otherwise cancel the in-flight utterance and clear both flags.  The sentence
queue is not touched. -/
def TTSEngine.stop (e : TTSEngine) : StepOut :=
  if e.synth = false then { state := e, events := [], effects := [] }
  else
    { state := { e with isPlaying := false, isPaused := false },
      events := [], effects := [ProviderRequest.cancel] }

/-- Model of the private method speakCurrent (lines 206-252): when the
provider is missing or the index has run past the queue, clear the playing
flag and fire onEnd; otherwise submit the current sentence to the provider. -/
def TTSEngine.speakCurrent (e : TTSEngine) : StepOut :=
  if e.synth = false ∨ e.sentences.length ≤ e.currentIndex then
    { state := { e with isPlaying := false }, events := [TTSEvent.onEnd],
      effects := [] }
  else
    { state := e, events := [],
      effects := [ProviderRequest.speak (e.sentences.getD e.currentIndex [])] }

/-- Model of TTSEngine.play (lines 128-144): report an error when synthesis
is unsupported; otherwise stop, re-segment the text, return if the queue is
empty, else clamp the start index, set the flags and speak. -/
def TTSEngine.play (e : TTSEngine) (text : List Char) (startIndex : Nat) : StepOut :=
  if e.synth = false then
    { state := e, events := [TTSEvent.onError unsupportedMessage], effects := [] }
  else
    let stopped := (e.stop).state
    let ss := splitIntoSentences text
    if ss.length = 0 then
      { state := { stopped with sentences := ss }, events := [],
        effects := (e.stop).effects }
    else
      let started :=
        { stopped with
          sentences := ss,
          currentIndex := Nat.max 0 (Nat.min startIndex (ss.length - 1)),
          isPlaying := true, isPaused := false }
      let sc := started.speakCurrent
      { state := sc.state, events := sc.events,
        effects := (e.stop).effects ++ sc.effects }

/-- Model of TTSEngine.pause (lines 146-151): no-op when the provider is
missing or the engine is not playing; otherwise request a provider pause, set
the paused flag and fire onPause. -/
def TTSEngine.pause (e : TTSEngine) : StepOut :=
  if e.synth = false ∨ e.isPlaying = false then
    { state := e, events := [], effects := [] }
  else
    { state := { e with isPaused := true }, events := [TTSEvent.onPause],
      effects := [ProviderRequest.pauseCurrent] }

/-- Model of TTSEngine.resume (lines 153-158): no-op when the provider is
missing or the engine is not paused; otherwise request a provider resume,
clear the paused flag and fire onResume. -/
def TTSEngine.resume (e : TTSEngine) : StepOut :=
  if e.synth = false ∨ e.isPaused = false then
    { state := e, events := [], effects := [] }
  else
    { state := { e with isPaused := false }, events := [TTSEvent.onResume],
      effects := [ProviderRequest.resumeCurrent] }

/-- Model of TTSEngine.nextSentence (lines 169-175): when a next sentence
exists, cancel (when a provider exists), advance the index and speak. -/
def TTSEngine.nextSentence (e : TTSEngine) : StepOut :=
  if e.currentIndex + 1 < e.sentences.length then
    let advanced := { e with currentIndex := e.currentIndex + 1 }
    let sc := advanced.speakCurrent
    { state := sc.state, events := sc.events,
      effects := (if e.synth = true then [ProviderRequest.cancel] else []) ++ sc.effects }
  else
    { state := e, events := [], effects := [] }

/-- Model of TTSEngine.previousSentence (lines 178-184): when a previous
sentence exists, cancel (when a provider exists), move back and speak. -/
def TTSEngine.previousSentence (e : TTSEngine) : StepOut :=
  if 0 < e.currentIndex then
    let back := { e with currentIndex := e.currentIndex - 1 }
    let sc := back.speakCurrent
    { state := sc.state, events := sc.events,
      effects := (if e.synth = true then [ProviderRequest.cancel] else []) ++ sc.effects }
  else
    { state := e, events := [], effects := [] }

/-- Model of the utterance onstart handler (lines 218-221). -/
def TTSEngine.onstart (e : TTSEngine) : StepOut :=
  { state := e,
    events := [TTSEvent.onStart e.currentIndex,
               TTSEvent.onSentenceChange e.currentIndex],
    effects := [] }

/-- Model of the utterance onend handler (lines 237-243): when playing and
not paused, advance the index and invoke speakCurrent; otherwise nothing. -/
def TTSEngine.onend (e : TTSEngine) : StepOut :=
  if e.isPlaying = true ∧ e.isPaused = false then
    TTSEngine.speakCurrent { e with currentIndex := e.currentIndex + 1 }
  else
    { state := e, events := [], effects := [] }

/-- Model of the utterance onerror handler (lines 245-248): a canceled reason
is swallowed; any other reason is forwarded to the caller via onError. -/
def TTSEngine.onerror (e : TTSEngine) (reason : List Char) : StepOut :=
  if reason = canceledReason then { state := e, events := [], effects := [] }
  else { state := e, events := [TTSEvent.onError reason], effects := [] }

/-- Model of the utterance onboundary handler (lines 223-235): word boundary
events are forwarded with their offsets and the sliced word; others ignored. -/
def TTSEngine.onboundary (e : TTSEngine) (name : List Char)
    (charIndex charLength : Nat) : StepOut :=
  if name = wordBoundaryName then
    let word := ((e.sentences.getD e.currentIndex []).drop charIndex).take charLength
    { state := e, events := [TTSEvent.onBoundary charIndex charLength word],
      effects := [] }
  else { state := e, events := [], effects := [] }

/-- Model of TTSEngine.getCurrentPosition (lines 196-202). -/
def TTSEngine.getCurrentPosition (e : TTSEngine) : TTSPosition :=
  { sentenceIndex := e.currentIndex, totalSentences := e.sentences.length,
    charIndex := 0 }

/-- Engine operations: caller commands and provider callbacks. -/
inductive Op where
  | play (text : List Char) (startIndex : Nat)
  | pause
  | resume
  | stop
  | nextSentence
  | previousSentence
  | providerStart
  | providerEnd
  | providerError (reason : List Char)
  | providerBoundary (name : List Char) (charIndex charLength : Nat)
deriving DecidableEq

/-- Whether an operation is a caller command (as opposed to a provider
callback). -/
def Op.isCommand : Op → Bool
  | .play _ _ | .pause | .resume | .stop | .nextSentence | .previousSentence => true
  | _ => false

/-- Dispatch one operation on the engine. -/
def TTSEngine.step (e : TTSEngine) : Op → StepOut
  | Op.play text i => e.play text i
  | Op.pause => e.pause
  | Op.resume => e.resume
  | Op.stop => e.stop
  | Op.nextSentence => e.nextSentence
  | Op.previousSentence => e.previousSentence
  | Op.providerStart => e.onstart
  | Op.providerEnd => e.onend
  | Op.providerError reason => e.onerror reason
  | Op.providerBoundary name ci cl => e.onboundary name ci cl

/-- Run a sequence of operations, accumulating events and requests. -/
def TTSEngine.runOps (e : TTSEngine) : List Op → TTSEngine × List TTSEvent × List ProviderRequest
  | [] => (e, [], [])
  | op :: ops =>
    let s := e.step op
    let r := s.state.runOps ops
    (r.1, s.events ++ r.2.1, s.effects ++ r.2.2)

/-- The engine observations the ReaderAudioBar component reads from the
useTTS hook: the mirrored flags and the last published position. -/
structure ReaderObs where
  isPlaying : Bool
  isPaused : Bool
  position : TTSPosition
deriving DecidableEq

/-- Guard of the auto-advance effect of ReaderAudioBar: not playing, not
paused, auto-advance enabled, some sentences existed, the position reached
the last sentence, and a later chapter exists. -/
def autoAdvanceCond (obs : ReaderObs) (autoAdvance : Bool)
    (currentChapterIndex totalChapters : Nat) : Bool :=
  !obs.isPlaying && !obs.isPaused && autoAdvance &&
  decide (0 < obs.position.totalSentences) &&
  decide (obs.position.totalSentences - 1 ≤ obs.position.sentenceIndex) &&
  decide (currentChapterIndex < totalChapters - 1)

/-- Model of the ReaderAudioBar auto-advance effect combined with the
external chapter-change effect: when the guard holds, the host is notified of
the next chapter index (onChapterChange), the chapter change stops the
engine, and the delayed callback plays the next chapter content; otherwise
nothing happens. -/
def readerAutoAdvance (chapters : List (List Char)) (currentChapterIndex : Nat)
    (autoAdvance : Bool) (obs : ReaderObs) (e : TTSEngine) : Option Nat × TTSEngine :=
  if autoAdvanceCond obs autoAdvance currentChapterIndex chapters.length then
    let nextIdx := currentChapterIndex + 1
    let stopped := (e.stop).state
    (some nextIdx, (stopped.play (chapters.getD nextIdx []) 0).state)
  else
    (none, e)

/-- Engine state immediately after loading the two-sentence text A. B. on a
supported engine; shared concrete input for witnesses and counterexamples. -/
def engineAB : TTSEngine := ((TTSEngine.init true).play ("A. B.".toList) 0).state

/-- Events an unsupported engine fires on a command sequence: one onError per
play attempt, nothing for any other command. -/
def unsupportedEvents : List Op → List TTSEvent
  | [] => []
  | Op.play _ _ :: ops => TTSEvent.onError unsupportedMessage :: unsupportedEvents ops
  | _ :: ops => unsupportedEvents ops

/-- A list whose dropWhile is itself has a head that fails the predicate. -/
theorem dropWhile_head_false {p : Char → Bool} {a : Char} {l : List Char}
    (h : List.dropWhile p (a :: l) = a :: l) : p a = false := by
  by_cases hpa : p a = true
  · exfalso
    rw [List.dropWhile_cons_of_pos hpa] at h
    have hle := (List.dropWhile_suffix (l := l) p).length_le
    have hlen := congrArg List.length h
    simp only [List.length_cons] at hlen
    omega
  · simpa using hpa

/-- A trimmed list has no leading whitespace left to drop. -/
theorem jsTrim_no_leading (s : List Char) :
    List.dropWhile isJsWhitespace (jsTrim s) = jsTrim s := by
  unfold jsTrim
  obtain ⟨u, hu⟩ :=
    List.rdropWhile_prefix isJsWhitespace (List.dropWhile isJsWhitespace s)
  have hBB := List.dropWhile_idempotent (p := isJsWhitespace) (l := s)
  cases hA : List.rdropWhile isJsWhitespace (List.dropWhile isJsWhitespace s) with
  | nil => simp
  | cons a t =>
    rw [hA] at hu
    have hBeq : List.dropWhile isJsWhitespace s = a :: (t ++ u) := by
      rw [← hu]; simp
    rw [hBeq] at hBB
    have hpa : isJsWhitespace a = false := dropWhile_head_false hBB
    rw [List.dropWhile_cons_of_neg (by simp [hpa])]

/-- Trimming is idempotent. -/
theorem jsTrim_idem (s : List Char) : jsTrim (jsTrim s) = jsTrim s := by
  conv_lhs => rw [jsTrim]
  rw [jsTrim_no_leading]
  rw [jsTrim]
  exact List.rdropWhile_idempotent _ _

/-- Every sentence returned by the segmenter is non-empty and trimmed. -/
theorem splitIntoSentences_mem {text s : List Char}
    (hs : s ∈ splitIntoSentences text) : s ≠ [] ∧ jsTrim s = s := by
  unfold splitIntoSentences at hs
  dsimp only at hs
  split at hs
  · simp at hs
  · next h1 =>
    split at hs
    · simp at hs
      subst hs
      exact ⟨h1, jsTrim_idem text⟩
    · split at hs
      · rw [List.mem_filter] at hs
        obtain ⟨hmem, hne⟩ := hs
        rw [List.mem_map] at hmem
        obtain ⟨r, _, hr⟩ := hmem
        subst hr
        refine ⟨?_, jsTrim_idem r⟩
        intro hnil
        rw [hnil] at hne
        simp at hne
      · rw [List.mem_append] at hs
        rcases hs with hs | hs
        · rw [List.mem_filter] at hs
          obtain ⟨hmem, hne⟩ := hs
          rw [List.mem_map] at hmem
          obtain ⟨r, _, hr⟩ := hmem
          subst hr
          refine ⟨?_, jsTrim_idem r⟩
          intro hnil
          rw [hnil] at hne
          simp at hne
        · next hrem =>
          rw [List.mem_singleton] at hs
          subst hs
          exact ⟨hrem, jsTrim_idem _⟩

/-- Whitespace-only input segments to the empty list. -/
theorem splitIntoSentences_ws_nil {text : List Char} (h : jsTrim text = []) :
    splitIntoSentences text = [] := by
  unfold splitIntoSentences
  rw [if_pos h]

/-- On a supported engine, play stores the segmentation of the text, so the
reported total equals the segment count. -/
theorem play_totalSentences (e : TTSEngine) (text : List Char) (h : e.synth = true) :
    (((e.play text 0).state).getCurrentPosition).totalSentences
      = (splitIntoSentences text).length := by
  unfold TTSEngine.play
  rw [if_neg (by simp [h])]
  dsimp only
  split
  · simp [TTSEngine.getCurrentPosition]
  · next hlen =>
    unfold TTSEngine.speakCurrent
    have hidx : Nat.max 0 (Nat.min 0 ((splitIntoSentences text).length - 1)) = 0 := by
      simp
    have hguard : ¬(({ (e.stop).state with
        sentences := splitIntoSentences text,
        currentIndex := Nat.max 0 (Nat.min 0 ((splitIntoSentences text).length - 1)),
        isPlaying := true, isPaused := false } : TTSEngine).synth = false ∨
        (splitIntoSentences text).length ≤
          Nat.max 0 (Nat.min 0 ((splitIntoSentences text).length - 1))) := by
      rw [hidx]
      push_neg
      exact ⟨by simp [TTSEngine.stop, h], by omega⟩
    rw [if_neg hguard]
    simp [TTSEngine.getCurrentPosition]

/-- C1: while the engine is Playing and not Paused on a supported provider, a
provider end event for a non-last sentence increments the sentence index by
exactly one, keeps the engine Playing, fires no callback and submits the next
sentence; the end event for the last sentence transitions the engine to Idle
(isPlaying false) and fires onEnd exactly once. -/
theorem claim_C1 (e : TTSEngine) (hsynth : e.synth = true)
    (hplay : e.isPlaying = true) (hpause : e.isPaused = false) :
    (e.currentIndex + 1 < e.sentences.length →
      (e.onend).state = { e with currentIndex := e.currentIndex + 1 } ∧
      (e.onend).state.isPlaying = true ∧
      (e.onend).events = [] ∧
      (e.onend).effects
        = [ProviderRequest.speak (e.sentences.getD (e.currentIndex + 1) [])]) ∧
    (e.currentIndex + 1 = e.sentences.length →
      (e.onend).state.isPlaying = false ∧
      (e.onend).events = [TTSEvent.onEnd] ∧
      (e.onend).effects = []) := by
  unfold TTSEngine.onend
  rw [if_pos ⟨hplay, hpause⟩]
  unfold TTSEngine.speakCurrent
  constructor
  · intro hlt
    rw [if_neg (by push_neg; exact ⟨by simp [hsynth], by simp; omega⟩)]
    simp [hplay]
  · intro heq
    rw [if_pos (by right; simp; omega)]
    simp

/-- C1 witness: a concrete engine loaded with two sentences, on which the
provider end event advances from sentence 0 to sentence 1 while playing. -/
theorem claim_C1_witness :
    engineAB.synth = true ∧ engineAB.isPlaying = true ∧ engineAB.isPaused = false ∧
    engineAB.currentIndex + 1 < engineAB.sentences.length ∧
    (engineAB.onend).state = { engineAB with currentIndex := 1 } ∧
    (engineAB.onend).effects = [ProviderRequest.speak ("B.".toList)] := by
  have h := claim_C1 engineAB (by decide) (by decide) (by decide)
  refine ⟨by decide, by decide, by decide, by decide, ?_, ?_⟩
  · have := (h.1 (by decide)).1
    rw [this]
    decide
  · have := (h.1 (by decide)).2.2.2
    rw [this]
    decide

/-- C2 counterexample: stop does not clear the sentence queue.  After loading
two sentences and stopping, getCurrentPosition reports 2 total sentences,
refuting the claim that a subsequent query returns zero. -/
theorem claim_C2_counterexample :
    ((engineAB.stop).state.getCurrentPosition).totalSentences = 2 ∧
    ¬ ((engineAB.stop).state.getCurrentPosition).totalSentences = 0 := by
  decide

/-- C2 amended: on a supported engine, stop cancels the in-flight utterance,
transitions to Idle (both flags cleared), fires no callback and is
idempotent; the sentence queue is retained, so a subsequent
getCurrentPosition reports the previously loaded sentence count. -/
theorem claim_C2_amended (e : TTSEngine) (h : e.synth = true) :
    (e.stop).state = { e with isPlaying := false, isPaused := false } ∧
    (e.stop).events = [] ∧
    (e.stop).effects = [ProviderRequest.cancel] ∧
    ((e.stop).state.stop).state = (e.stop).state ∧
    ((e.stop).state.getCurrentPosition).totalSentences = e.sentences.length := by
  unfold TTSEngine.stop TTSEngine.getCurrentPosition
  simp [h]

/-- C2 amended witness: the concrete two-sentence engine. -/
theorem claim_C2_witness :
    engineAB.synth = true ∧
    ((engineAB.stop).state = { engineAB with isPlaying := false, isPaused := false } ∧
     (engineAB.stop).events = [] ∧
     (engineAB.stop).effects = [ProviderRequest.cancel] ∧
     ((engineAB.stop).state.stop).state = (engineAB.stop).state ∧
     ((engineAB.stop).state.getCurrentPosition).totalSentences = engineAB.sentences.length) :=
  ⟨by decide, claim_C2_amended engineAB (by decide)⟩

/-- C3 counterexample: loading empty text is not observation-preserving.  On
an engine that is Playing two sentences, play with empty text flips isPlaying
to false and empties the queue, so the observable state changed. -/
theorem claim_C3_counterexample :
    engineAB.isPlaying = true ∧
    ((engineAB.play [] 0).state).isPlaying = false ∧
    ¬ (engineAB.play [] 0).state = engineAB := by
  decide

/-- C3 amended: on a supported engine, when segmentation of the text yields
zero sentences, play fires no callback and issues only the cancellation of
any in-flight utterance; the engine ends Idle with an empty queue (the
sentence index is retained). -/
theorem claim_C3_amended (e : TTSEngine) (text : List Char) (hs : e.synth = true)
    (hempty : splitIntoSentences text = []) :
    (e.play text 0).state = { e with isPlaying := false, isPaused := false, sentences := [] } ∧
    (e.play text 0).events = [] ∧
    (e.play text 0).effects = [ProviderRequest.cancel] := by
  unfold TTSEngine.play
  rw [if_neg (by simp [hs])]
  dsimp only
  rw [hempty]
  simp [TTSEngine.stop, hs]

/-- C3 amended witness: whitespace-only text on the loaded engine. -/
theorem claim_C3_witness :
    engineAB.synth = true ∧ splitIntoSentences ("   ".toList) = [] ∧
    ((engineAB.play ("   ".toList) 0).state
        = { engineAB with isPlaying := false, isPaused := false, sentences := [] } ∧
     (engineAB.play ("   ".toList) 0).events = [] ∧
     (engineAB.play ("   ".toList) 0).effects = [ProviderRequest.cancel]) :=
  ⟨by decide, by decide, claim_C3_amended engineAB ("   ".toList) (by decide) (by decide)⟩

/-- C4 counterexample: on the input 3.14 the code splits at the period even
though no whitespace follows it, while the claimed heuristic (punctuation
followed by whitespace) keeps the whole input as one sentence. -/
theorem claim_C4_counterexample :
    splitIntoSentences ("3.14".toList) = ["3.".toList, "14".toList] ∧
    specSegment ("3.14".toList) = ["3.14".toList] ∧
    ¬ splitIntoSentences ("3.14".toList) = specSegment ("3.14".toList) := by
  decide

/-- C5: on a supported engine, for every text, play followed immediately by
getCurrentPosition reports a total equal to the segment count of the text. -/
theorem claim_C5 (e : TTSEngine) (text : List Char) (h : e.synth = true) :
    (((e.play text 0).state).getCurrentPosition).totalSentences
      = (splitIntoSentences text).length :=
  play_totalSentences e text h

/-- C5 witness: a fresh supported engine and a two-sentence text. -/
theorem claim_C5_witness :
    (TTSEngine.init true).synth = true ∧
    ((((TTSEngine.init true).play ("A. B.".toList) 0).state).getCurrentPosition).totalSentences
      = (splitIntoSentences ("A. B.".toList)).length :=
  ⟨by decide, claim_C5 (TTSEngine.init true) ("A. B.".toList) (by decide)⟩

/-- C6 counterexample: a cancellation arriving while a loaded utterance is in
flight, with no stop, skip or load call in the trace after the submission, is
still swallowed: the whole trace fires no callback at all, so no onError is
forwarded, refuting the claim that spontaneous cancellations are reported. -/
theorem claim_C6_counterexample :
    ((TTSEngine.init true).runOps
        [Op.play ("A. B.".toList) 0, Op.providerError canceledReason]).2.1 = [] := by
  decide

/-- C6 amended: the error handler cannot distinguish causes: EVERY provider
cancellation event is swallowed, whether or not it results from the engine
own stop, skip or load calls, while any other reason is forwarded to the
caller via onError; the engine state is never changed by the handler. -/
theorem claim_C6_amended (e : TTSEngine) (reason : List Char) :
    (e.onerror reason).state = e ∧
    (e.onerror reason).effects = [] ∧
    (reason = canceledReason → (e.onerror reason).events = []) ∧
    (¬ reason = canceledReason →
      (e.onerror reason).events = [TTSEvent.onError reason]) := by
  unfold TTSEngine.onerror
  by_cases h : reason = canceledReason
  · simp [h]
  · simp [h]

/-- C6 amended witness: the canceled reason is swallowed and a distinct
reason is forwarded, on the concrete loaded engine. -/
theorem claim_C6_witness :
    (engineAB.onerror canceledReason).events = [] ∧
    (engineAB.onerror ("network".toList)).events
      = [TTSEvent.onError ("network".toList)] :=
  ⟨(claim_C6_amended engineAB canceledReason).2.2.1 rfl,
   (claim_C6_amended engineAB ("network".toList)).2.2.2 (by decide)⟩

/-- C7 counterexample: pause is not a no-op from the Paused state.  After
loading and pausing, a second pause call fires onPause again (the guard only
checks isPlaying, which stays true while paused), refuting the claim that no
event is emitted. -/
theorem claim_C7_counterexample :
    ((engineAB.pause).state).isPaused = true ∧
    (((engineAB.pause).state).pause).events = [TTSEvent.onPause] := by
  decide

/-- C7 amended: pause is a no-op exactly when the provider is missing or the
engine is not playing; whenever isPlaying is true - including from the Paused
state, where isPlaying remains true - it requests a provider pause, sets the
paused flag (already set when paused) and emits onPause again. -/
theorem claim_C7_amended (e : TTSEngine) :
    (e.synth = false ∨ e.isPlaying = false →
      e.pause = { state := e, events := [], effects := [] }) ∧
    (e.synth = true → e.isPlaying = true →
      (e.pause).state = { e with isPaused := true } ∧
      (e.pause).events = [TTSEvent.onPause] ∧
      (e.pause).effects = [ProviderRequest.pauseCurrent]) := by
  unfold TTSEngine.pause
  constructor
  · intro h
    rw [if_pos h]
  · intro h1 h2
    rw [if_neg (by simp [h1, h2])]
    simp

/-- C7 amended witness: the no-op branch on a fresh idle engine and the
effective branch on the loaded playing engine. -/
theorem claim_C7_witness :
    ((TTSEngine.init true).isPlaying = false ∧
      (TTSEngine.init true).pause
        = { state := TTSEngine.init true, events := [], effects := [] }) ∧
    (engineAB.synth = true ∧ engineAB.isPlaying = true ∧
      (engineAB.pause).state = { engineAB with isPaused := true } ∧
      (engineAB.pause).events = [TTSEvent.onPause] ∧
      (engineAB.pause).effects = [ProviderRequest.pauseCurrent]) :=
  ⟨⟨by decide, (claim_C7_amended (TTSEngine.init true)).1 (Or.inr (by decide))⟩,
   ⟨by decide, by decide, (claim_C7_amended engineAB).2 (by decide) (by decide)⟩⟩

/-- One caller command on the unsupported initial engine: the state is kept,
no provider request is issued, and only play fires (an error) callback. -/
theorem step_unsupported (op : Op) (h : op.isCommand = true) :
    (TTSEngine.init false).step op
      = { state := TTSEngine.init false,
          events := unsupportedEvents [op], effects := [] } := by
  cases op with
  | play text i =>
    simp [TTSEngine.step, TTSEngine.play, TTSEngine.init, unsupportedEvents]
  | pause => simp [TTSEngine.step, TTSEngine.pause, TTSEngine.init, unsupportedEvents]
  | resume => simp [TTSEngine.step, TTSEngine.resume, TTSEngine.init, unsupportedEvents]
  | stop => simp [TTSEngine.step, TTSEngine.stop, TTSEngine.init, unsupportedEvents]
  | nextSentence =>
    simp [TTSEngine.step, TTSEngine.nextSentence, TTSEngine.init, unsupportedEvents]
  | previousSentence =>
    simp [TTSEngine.step, TTSEngine.previousSentence, TTSEngine.init, unsupportedEvents]
  | providerStart => simp [Op.isCommand] at h
  | providerEnd => simp [Op.isCommand] at h
  | providerError reason => simp [Op.isCommand] at h
  | providerBoundary name ci cl => simp [Op.isCommand] at h

/-- C8 counterexample: with no synthesis capability, the unsupported
condition is reported on EVERY load attempt, not exactly once on the first:
two load calls produce two onError events. -/
theorem claim_C8_counterexample :
    (((TTSEngine.init false).runOps
        [Op.play ("Hello.".toList) 0, Op.play ("Hello.".toList) 0]).2.1).count
      (TTSEvent.onError unsupportedMessage) = 2 := by
  decide

/-- C8 amended: with no synthesis capability, every load attempt is reported
via onError with the unsupported message; under any sequence of caller
commands the engine never leaves its initial Idle state, never submits an
utterance and issues no provider request at all, and the only events fired
are those error reports. -/
theorem claim_C8_amended (ops : List Op) (h : ∀ op ∈ ops, op.isCommand = true) :
    ((TTSEngine.init false).runOps ops).1 = TTSEngine.init false ∧
    ((TTSEngine.init false).runOps ops).2.2 = [] ∧
    ((TTSEngine.init false).runOps ops).2.1 = unsupportedEvents ops := by
  induction ops with
  | nil => exact ⟨rfl, rfl, rfl⟩
  | cons op ops ih =>
    have hop := step_unsupported op (h op (List.mem_cons_self op ops))
    have hrest := ih (fun o ho => h o (List.mem_cons_of_mem op ho))
    unfold TTSEngine.runOps
    rw [hop]
    dsimp only
    rw [hrest.1, hrest.2.1, hrest.2.2]
    refine ⟨rfl, rfl, ?_⟩
    cases op <;> simp [unsupportedEvents]

/-- C8 amended witness: two loads and one stop on the unsupported engine. -/
theorem claim_C8_witness :
    (∀ op ∈ [Op.play ("Hi.".toList) 0, Op.stop, Op.play ("Hi.".toList) 0],
        op.isCommand = true) ∧
    ((TTSEngine.init false).runOps
        [Op.play ("Hi.".toList) 0, Op.stop, Op.play ("Hi.".toList) 0]).1
      = TTSEngine.init false ∧
    ((TTSEngine.init false).runOps
        [Op.play ("Hi.".toList) 0, Op.stop, Op.play ("Hi.".toList) 0]).2.2 = [] ∧
    ((TTSEngine.init false).runOps
        [Op.play ("Hi.".toList) 0, Op.stop, Op.play ("Hi.".toList) 0]).2.1
      = unsupportedEvents [Op.play ("Hi.".toList) 0, Op.stop, Op.play ("Hi.".toList) 0] :=
  ⟨by decide,
   claim_C8_amended [Op.play ("Hi.".toList) 0, Op.stop, Op.play ("Hi.".toList) 0]
     (by decide)⟩

/-- C9: after the engine end-of-text event (hook observation: not playing,
not paused, position at the end of a non-empty sentence list), the
auto-advance logic with auto-advance enabled and a later chapter available
notifies the host of chapter index plus one and loads that chapter content
into the engine; at the last chapter, or with auto-advance disabled, it does
nothing and the engine is untouched. -/
theorem claim_C9 (chapters : List (List Char)) (idx : Nat) (autoAdv : Bool)
    (obs : ReaderObs) (e : TTSEngine)
    (hsynth : e.synth = true)
    (hplay : obs.isPlaying = false) (hpause : obs.isPaused = false)
    (hpos : obs.position.sentenceIndex = obs.position.totalSentences)
    (hn : 0 < obs.position.totalSentences) :
    (autoAdv = true → idx + 1 < chapters.length →
      (readerAutoAdvance chapters idx autoAdv obs e).1 = some (idx + 1) ∧
      (((readerAutoAdvance chapters idx autoAdv obs e).2).getCurrentPosition).totalSentences
        = (splitIntoSentences (chapters.getD (idx + 1) [])).length) ∧
    (autoAdv = false ∨ chapters.length ≤ idx + 1 →
      (readerAutoAdvance chapters idx autoAdv obs e).1 = none ∧
      (readerAutoAdvance chapters idx autoAdv obs e).2 = e) := by
  constructor
  · intro ha hlt
    have hc : autoAdvanceCond obs autoAdv idx chapters.length = true := by
      unfold autoAdvanceCond
      rw [hplay, hpause, ha]
      simp only [Bool.not_false, Bool.true_and, Bool.and_true, Bool.and_eq_true,
        decide_eq_true_eq]
      omega
    unfold readerAutoAdvance
    rw [if_pos hc]
    refine ⟨rfl, ?_⟩
    have hsynth2 : ((e.stop).state).synth = true := by
      unfold TTSEngine.stop
      simp [hsynth]
    exact play_totalSentences _ _ hsynth2
  · intro hor
    have hc : autoAdvanceCond obs autoAdv idx chapters.length = false := by
      unfold autoAdvanceCond
      rcases hor with h | h
      · rw [h]
        simp
      · have : decide (idx < chapters.length - 1) = false := by
          simp only [decide_eq_false_iff_not]
          omega
        rw [this]
        simp
    unfold readerAutoAdvance
    rw [if_neg (by rw [hc]; simp)]
    exact ⟨rfl, rfl⟩

/-- C9 witness: two chapters, auto-advance enabled at chapter 0 advances and
loads chapter 1; auto-advance disabled does nothing. -/
theorem claim_C9_witness :
    ((readerAutoAdvance ["Hi.".toList, "Yo. Ya.".toList] 0 true
        { isPlaying := false, isPaused := false,
          position := { sentenceIndex := 1, totalSentences := 1, charIndex := 0 } }
        (TTSEngine.init true)).1 = some 1 ∧
      ((readerAutoAdvance ["Hi.".toList, "Yo. Ya.".toList] 0 true
        { isPlaying := false, isPaused := false,
          position := { sentenceIndex := 1, totalSentences := 1, charIndex := 0 } }
        (TTSEngine.init true)).2.getCurrentPosition).totalSentences
        = (splitIntoSentences ("Yo. Ya.".toList)).length) ∧
    ((readerAutoAdvance ["Hi.".toList, "Yo. Ya.".toList] 0 false
        { isPlaying := false, isPaused := false,
          position := { sentenceIndex := 1, totalSentences := 1, charIndex := 0 } }
        (TTSEngine.init true)).1 = none) := by
  have h := claim_C9 ["Hi.".toList, "Yo. Ya.".toList] 0 true
    { isPlaying := false, isPaused := false,
      position := { sentenceIndex := 1, totalSentences := 1, charIndex := 0 } }
    (TTSEngine.init true) (by decide) rfl rfl rfl (by decide)
  have h2 := claim_C9 ["Hi.".toList, "Yo. Ya.".toList] 0 false
    { isPlaying := false, isPaused := false,
      position := { sentenceIndex := 1, totalSentences := 1, charIndex := 0 } }
    (TTSEngine.init true) (by decide) rfl rfl rfl (by decide)
  exact ⟨h.1 rfl (by decide), (h2.2 (Or.inl rfl)).1⟩

/-- C10: under every operation sequence the position query reports a
charIndex of zero; word boundary events are forwarded to onBoundary carrying
their character offsets but never change the engine state, and non-word
boundary events are ignored. -/
theorem claim_C10 (e : TTSEngine) (ops : List Op) (name : List Char)
    (ci cl : Nat) :
    (((e.runOps ops).1).getCurrentPosition).charIndex = 0 ∧
    (e.onboundary name ci cl).state = e ∧
    (e.onboundary name ci cl).effects = [] ∧
    (name = wordBoundaryName →
      ∃ w, (e.onboundary name ci cl).events = [TTSEvent.onBoundary ci cl w]) ∧
    (¬ name = wordBoundaryName → (e.onboundary name ci cl).events = []) := by
  refine ⟨rfl, ?_, ?_, ?_, ?_⟩ <;> unfold TTSEngine.onboundary
  · split <;> rfl
  · split <;> rfl
  · intro h
    rw [if_pos h]
    exact ⟨_, rfl⟩
  · intro h
    rw [if_neg h]

/-- C10 witness: a word boundary event on the loaded engine. -/
theorem claim_C10_witness :
    (((engineAB.runOps [Op.providerBoundary wordBoundaryName 0 2]).1).getCurrentPosition).charIndex = 0 ∧
    (engineAB.onboundary wordBoundaryName 0 2).state = engineAB ∧
    (∃ w, (engineAB.onboundary wordBoundaryName 0 2).events
        = [TTSEvent.onBoundary 0 2 w]) := by
  have h := claim_C10 engineAB [Op.providerBoundary wordBoundaryName 0 2]
    wordBoundaryName 0 2
  exact ⟨h.1, h.2.1, h.2.2.2.1 rfl⟩

/-- The regex scan finds no match in the empty string, whatever the fuel. -/
theorem rawMatchesFuel_nil (fuel : Nat) : rawMatchesFuel fuel [] = [] := by
  cases fuel <;> simp [rawMatchesFuel]

/-- Dropping the non-terminal prefix of a text with no terminal character
consumes everything. -/
theorem dropWhile_not_terminal_eq_nil {s : List Char}
    (h : s.any isSentenceTerminal = false) :
    s.dropWhile (fun c => !isSentenceTerminal c) = [] := by
  rw [List.dropWhile_eq_nil_iff]
  intro x hx
  have := List.any_eq_false.mp h x hx
  simpa using this

/-- A text containing a terminal character has a non-empty remainder after
its non-terminal prefix. -/
theorem dropWhile_ne_nil_of_any {s : List Char}
    (h : s.any isSentenceTerminal = true) :
    s.dropWhile (fun c => !isSentenceTerminal c) ≠ [] := by
  intro hnil
  rw [List.dropWhile_eq_nil_iff] at hnil
  obtain ⟨x, hx, hTx⟩ := List.any_eq_true.mp h
  have := hnil x hx
  simp [hTx] at this

/-- One scan step strictly shrinks the text: the tail after dropping the
non-terminal prefix, the punctuation run and the following whitespace is
shorter than the input, provided a terminal was found. -/
theorem scanTail_length_lt {s : List Char}
    (h : s.dropWhile (fun c => !isSentenceTerminal c) ≠ []) :
    (((s.dropWhile (fun c => !isSentenceTerminal c)).dropWhile
        isSentenceTerminal).dropWhile isJsWhitespace).length < s.length := by
  obtain ⟨a, t, hat⟩ : ∃ a t,
      s.dropWhile (fun c => !isSentenceTerminal c) = a :: t := by
    cases hr : s.dropWhile (fun c => !isSentenceTerminal c) with
    | nil => exact absurd hr h
    | cons a t => exact ⟨a, t, rfl⟩
  have hTa : isSentenceTerminal a = true := by
    have hw := List.head?_dropWhile_not (fun c => !isSentenceTerminal c) s
    rw [hat] at hw
    simpa using hw
  have h1 : (s.dropWhile (fun c => !isSentenceTerminal c)).dropWhile
      isSentenceTerminal = t.dropWhile isSentenceTerminal := by
    rw [hat, List.dropWhile_cons_of_pos hTa]
  have h2 : (t.dropWhile isSentenceTerminal).length ≤ t.length :=
    (List.dropWhile_sublist _).length_le
  have h3 : ((t.dropWhile isSentenceTerminal).dropWhile isJsWhitespace).length
      ≤ (t.dropWhile isSentenceTerminal).length :=
    (List.dropWhile_sublist _).length_le
  have h4 : (s.dropWhile (fun c => !isSentenceTerminal c)).length ≤ s.length :=
    (List.dropWhile_sublist _).length_le
  rw [h1]
  rw [hat] at h4
  simp only [List.length_cons] at h4
  omega

/-- Trimming erases a text exactly when it is all whitespace. -/
theorem jsTrim_eq_nil_iff {s : List Char} :
    jsTrim s = [] ↔ ∀ c ∈ s, isJsWhitespace c = true := by
  unfold jsTrim
  rw [List.rdropWhile_eq_nil_iff]
  constructor
  · intro h c hc
    have hsplit := List.takeWhile_append_dropWhile (p := isJsWhitespace) (l := s)
    rw [← hsplit] at hc
    rcases List.mem_append.mp hc with hc | hc
    · exact List.mem_takeWhile_imp hc
    · exact h c hc
  · intro h c hc
    exact h c ((List.dropWhile_sublist _).subset hc)

/-- Terminal punctuation characters are not whitespace. -/
theorem terminal_not_ws {c : Char} (h : isSentenceTerminal c = true) :
    isJsWhitespace c = false := by
  have hc : (c = '.' ∨ c = '!') ∨ c = '?' := by
    simpa [isSentenceTerminal, Bool.or_eq_true, beq_iff_eq] using h
  rcases hc with (rfl | rfl) | rfl <;> decide

/-- A text containing a terminal character does not trim to nothing. -/
theorem jsTrim_ne_nil_of_terminal {s : List Char}
    (h : s.any isSentenceTerminal = true) : jsTrim s ≠ [] := by
  intro hnil
  obtain ⟨x, hx, hTx⟩ := List.any_eq_true.mp h
  have hws := jsTrim_eq_nil_iff.mp hnil x hx
  rw [terminal_not_ws hTx] at hws
  exact Bool.false_ne_true hws

/-- The regex finds no match in a text with no terminal character. -/
theorem rawMatches_eq_nil {s : List Char}
    (h : s.any isSentenceTerminal = false) : rawMatches s = [] := by
  rw [rawMatches]
  cases s with
  | nil => rfl
  | cons a t =>
    simp only [List.length_cons, rawMatchesFuel]
    rw [if_neg (by simp [h])]

/-- The regex scan is independent of the fuel once it covers the length. -/
theorem rawMatchesFuel_congr : ∀ (fuel fuel' : Nat) (s : List Char),
    s.length ≤ fuel → s.length ≤ fuel' →
    rawMatchesFuel fuel s = rawMatchesFuel fuel' s := by
  intro fuel
  induction fuel with
  | zero =>
    intro fuel' s h _
    have hs : s = [] := List.eq_nil_of_length_eq_zero (Nat.le_zero.mp h)
    subst hs
    rw [rawMatchesFuel_nil, rawMatchesFuel_nil]
  | succ fuel ih =>
    intro fuel' s h h'
    cases fuel' with
    | zero =>
      have hs : s = [] := List.eq_nil_of_length_eq_zero (Nat.le_zero.mp h')
      subst hs
      rw [rawMatchesFuel_nil, rawMatchesFuel_nil]
    | succ fuel'' =>
      by_cases hterm : s.any isSentenceTerminal = true
      · have hlt := scanTail_length_lt (dropWhile_ne_nil_of_any hterm)
        simp only [rawMatchesFuel]
        rw [if_pos hterm, if_pos hterm]
        congr 1
        exact ih fuel'' _ (by omega) (by omega)
      · simp only [rawMatchesFuel]
        rw [if_neg hterm, if_neg hterm]

/-- The amended-words segmenter is independent of the fuel once it exceeds
the length. -/
theorem amendedSegmentFuel_congr : ∀ (fuel fuel' : Nat) (s : List Char),
    s.length < fuel → s.length < fuel' →
    amendedSegmentFuel fuel s = amendedSegmentFuel fuel' s := by
  intro fuel
  induction fuel with
  | zero => intro fuel' s h _; omega
  | succ fuel ih =>
    intro fuel' s h h'
    cases fuel' with
    | zero => omega
    | succ fuel'' =>
      simp only [amendedSegmentFuel]
      cases hat : s.dropWhile (fun c => !isSentenceTerminal c) with
      | nil => rfl
      | cons a t =>
        dsimp only
        have hlt := scanTail_length_lt (s := s) (by rw [hat]; simp)
        rw [hat] at hlt
        congr 1
        apply ih
        · omega
        · omega

/-- Bookkeeping step of splitIntoSentences: when the first regex match m is a
prefix of the text, trims to something non-empty, and the remaining matches
are exactly the matches of the rest, the join-slice-filter plumbing of the
code produces the trimmed match followed by the segmentation of the rest. -/
theorem splitIntoSentences_decomp {m tail : List Char}
    (hraw : rawMatches (m ++ tail) = m :: rawMatches tail)
    (hm : jsTrim m ≠ [])
    (htrim : jsTrim (m ++ tail) ≠ []) :
    splitIntoSentences (m ++ tail) = jsTrim m :: splitIntoSentences tail := by
  rw [splitIntoSentences]
  rw [if_neg htrim]
  rw [hraw]
  rw [if_neg (by simp)]
  dsimp only
  rw [List.flatten_cons, List.length_append, List.drop_append,
    List.map_cons, List.filter_cons_of_pos (by
      cases hjm : jsTrim m with
      | nil => exact absurd hjm hm
      | cons c l => simp)]
  by_cases htail : jsTrim tail = []
  · have hnt : tail.any isSentenceTerminal = false := by
      by_cases hx : tail.any isSentenceTerminal = true
      · exact absurd htail (jsTrim_ne_nil_of_terminal hx)
      · simpa using hx
    rw [rawMatches_eq_nil hnt]
    rw [splitIntoSentences, if_pos htail]
    simp [htail]
  · rw [splitIntoSentences, if_neg htail]
    dsimp only
    by_cases hrawt : rawMatches tail = []
    · rw [hrawt]
      simp [htail]
    · rw [if_neg hrawt]
      split
      · rfl
      · rw [List.cons_append]

/-- Unfolding of splitIntoSentences on a text containing a terminal
character: the first sentence is the trimmed first regex match (non-terminal
prefix, punctuation run, following whitespace) and the rest is the
segmentation of what follows. -/
theorem splitIntoSentences_step {s : List Char}
    (hterm : s.any isSentenceTerminal = true) :
    splitIntoSentences s =
      jsTrim (s.takeWhile (fun c => !isSentenceTerminal c)
          ++ (s.dropWhile (fun c => !isSentenceTerminal c)).takeWhile isSentenceTerminal
          ++ ((s.dropWhile (fun c => !isSentenceTerminal c)).dropWhile
              isSentenceTerminal).takeWhile isJsWhitespace)
        :: splitIntoSentences (((s.dropWhile (fun c => !isSentenceTerminal c)).dropWhile
              isSentenceTerminal).dropWhile isJsWhitespace) := by
  have hrest := dropWhile_ne_nil_of_any hterm
  obtain ⟨a, t, hat⟩ : ∃ a t,
      s.dropWhile (fun c => !isSentenceTerminal c) = a :: t := by
    cases hr : s.dropWhile (fun c => !isSentenceTerminal c) with
    | nil => exact absurd hr hrest
    | cons a t => exact ⟨a, t, rfl⟩
  have hTa : isSentenceTerminal a = true := by
    have hw := List.head?_dropWhile_not (fun c => !isSentenceTerminal c) s
    rw [hat] at hw
    simpa using hw
  have e1 := List.takeWhile_append_dropWhile
    (p := fun c => !isSentenceTerminal c) (l := s)
  have e2 := List.takeWhile_append_dropWhile (p := isSentenceTerminal)
    (l := s.dropWhile (fun c => !isSentenceTerminal c))
  have e3 := List.takeWhile_append_dropWhile (p := isJsWhitespace)
    (l := (s.dropWhile (fun c => !isSentenceTerminal c)).dropWhile isSentenceTerminal)
  have hsplit : s = (s.takeWhile (fun c => !isSentenceTerminal c)
      ++ (s.dropWhile (fun c => !isSentenceTerminal c)).takeWhile isSentenceTerminal
      ++ ((s.dropWhile (fun c => !isSentenceTerminal c)).dropWhile
          isSentenceTerminal).takeWhile isJsWhitespace)
      ++ (((s.dropWhile (fun c => !isSentenceTerminal c)).dropWhile
          isSentenceTerminal).dropWhile isJsWhitespace) := by
    symm
    calc (s.takeWhile (fun c => !isSentenceTerminal c)
        ++ (s.dropWhile (fun c => !isSentenceTerminal c)).takeWhile isSentenceTerminal
        ++ ((s.dropWhile (fun c => !isSentenceTerminal c)).dropWhile
            isSentenceTerminal).takeWhile isJsWhitespace)
        ++ (((s.dropWhile (fun c => !isSentenceTerminal c)).dropWhile
            isSentenceTerminal).dropWhile isJsWhitespace)
        = s.takeWhile (fun c => !isSentenceTerminal c)
          ++ ((s.dropWhile (fun c => !isSentenceTerminal c)).takeWhile isSentenceTerminal
          ++ (((s.dropWhile (fun c => !isSentenceTerminal c)).dropWhile
              isSentenceTerminal).takeWhile isJsWhitespace
          ++ (((s.dropWhile (fun c => !isSentenceTerminal c)).dropWhile
              isSentenceTerminal).dropWhile isJsWhitespace))) := by
          simp [List.append_assoc]
      _ = s.takeWhile (fun c => !isSentenceTerminal c)
          ++ ((s.dropWhile (fun c => !isSentenceTerminal c)).takeWhile isSentenceTerminal
          ++ (s.dropWhile (fun c => !isSentenceTerminal c)).dropWhile isSentenceTerminal) := by
          rw [e3]
      _ = s.takeWhile (fun c => !isSentenceTerminal c)
          ++ s.dropWhile (fun c => !isSentenceTerminal c) := by
          rw [e2]
      _ = s := e1
  have hm : jsTrim (s.takeWhile (fun c => !isSentenceTerminal c)
      ++ (s.dropWhile (fun c => !isSentenceTerminal c)).takeWhile isSentenceTerminal
      ++ ((s.dropWhile (fun c => !isSentenceTerminal c)).dropWhile
          isSentenceTerminal).takeWhile isJsWhitespace) ≠ [] := by
    intro hnil
    have hmem : a ∈ s.takeWhile (fun c => !isSentenceTerminal c)
        ++ (s.dropWhile (fun c => !isSentenceTerminal c)).takeWhile isSentenceTerminal
        ++ ((s.dropWhile (fun c => !isSentenceTerminal c)).dropWhile
            isSentenceTerminal).takeWhile isJsWhitespace := by
      rw [hat, List.takeWhile_cons_of_pos hTa]
      simp
    have hws := jsTrim_eq_nil_iff.mp hnil a hmem
    rw [terminal_not_ws hTa] at hws
    exact Bool.false_ne_true hws
  have hraw : rawMatches s =
      (s.takeWhile (fun c => !isSentenceTerminal c)
        ++ (s.dropWhile (fun c => !isSentenceTerminal c)).takeWhile isSentenceTerminal
        ++ ((s.dropWhile (fun c => !isSentenceTerminal c)).dropWhile
            isSentenceTerminal).takeWhile isJsWhitespace)
      :: rawMatches (((s.dropWhile (fun c => !isSentenceTerminal c)).dropWhile
            isSentenceTerminal).dropWhile isJsWhitespace) := by
    obtain ⟨k, hk⟩ : ∃ k, s.length = k + 1 := by
      cases s with
      | nil => simp at hterm
      | cons b r => exact ⟨r.length, rfl⟩
    rw [rawMatches, hk]
    simp only [rawMatchesFuel]
    rw [if_pos hterm]
    congr 1
    rw [rawMatches]
    apply rawMatchesFuel_congr
    · have := scanTail_length_lt hrest
      omega
    · exact Nat.le_refl _
  conv_lhs => rw [hsplit]
  apply splitIntoSentences_decomp
  · rw [← hsplit]
    exact hraw
  · exact hm
  · rw [← hsplit]
    exact jsTrim_ne_nil_of_terminal hterm

/-- Unfolding of the amended-words segmenter on a text containing a terminal
character: same first run, then the segmentation of what follows. -/
theorem amendedSegment_step {s : List Char}
    (hterm : s.any isSentenceTerminal = true) :
    amendedSegment s =
      jsTrim (s.takeWhile (fun c => !isSentenceTerminal c)
          ++ (s.dropWhile (fun c => !isSentenceTerminal c)).takeWhile isSentenceTerminal
          ++ ((s.dropWhile (fun c => !isSentenceTerminal c)).dropWhile
              isSentenceTerminal).takeWhile isJsWhitespace)
        :: amendedSegment (((s.dropWhile (fun c => !isSentenceTerminal c)).dropWhile
              isSentenceTerminal).dropWhile isJsWhitespace) := by
  have hrest := dropWhile_ne_nil_of_any hterm
  have hlt := scanTail_length_lt hrest
  obtain ⟨a, t, hat⟩ : ∃ a t,
      s.dropWhile (fun c => !isSentenceTerminal c) = a :: t := by
    cases hr : s.dropWhile (fun c => !isSentenceTerminal c) with
    | nil => exact absurd hr hrest
    | cons a t => exact ⟨a, t, rfl⟩
  rw [hat] at hlt
  conv_lhs => rw [amendedSegment]
  simp only [amendedSegmentFuel]
  rw [hat]
  dsimp only
  congr 1
  rw [amendedSegment]
  apply amendedSegmentFuel_congr
  · omega
  · omega

/-- The code segmenter and the amended-words segmenter agree on every input
(stated with an explicit length bound for the induction). -/
theorem splitIntoSentences_eq_amended_aux : ∀ (n : Nat) (s : List Char),
    s.length ≤ n → splitIntoSentences s = amendedSegment s := by
  intro n
  induction n with
  | zero =>
    intro s h
    have hs : s = [] := List.eq_nil_of_length_eq_zero (Nat.le_zero.mp h)
    subst hs
    decide
  | succ n ih =>
    intro s hs
    by_cases hterm : s.any isSentenceTerminal = true
    · have hrest := dropWhile_ne_nil_of_any hterm
      have hlt := scanTail_length_lt hrest
      rw [splitIntoSentences_step hterm, amendedSegment_step hterm]
      congr 1
      apply ih
      omega
    · have hb : s.any isSentenceTerminal = false := by simpa using hterm
      have hrest := dropWhile_not_terminal_eq_nil hb
      have hraw := rawMatches_eq_nil hb
      rw [splitIntoSentences, amendedSegment]
      simp only [amendedSegmentFuel]
      rw [hrest, hraw]
      dsimp only
      by_cases htrim : jsTrim s = []
      · rw [if_pos htrim, if_pos htrim]
      · rw [if_neg htrim, if_neg htrim, if_pos rfl]

/-- The code segmenter agrees with the amended-words segmenter. -/
theorem splitIntoSentences_eq_amendedSegment (s : List Char) :
    splitIntoSentences s = amendedSegment s :=
  splitIntoSentences_eq_amended_aux s.length s (Nat.le_refl _)

/-- C4 amended: segment returns exactly the ordered runs terminated by one or
more of period, exclamation or question mark followed by ZERO or more
whitespace characters (punctuation immediately followed by a non-whitespace
character still ends a sentence), with any trailing text carrying no terminal
punctuation as one final sentence - formalised as extensional equality with
the amended-words segmenter amendedSegment; moreover every returned sentence
is a non-empty trimmed string and empty or whitespace-only input yields the
empty sequence. -/
theorem claim_C4_amended (text : List Char) :
    splitIntoSentences text = amendedSegment text ∧
    (∀ s ∈ splitIntoSentences text, s ≠ [] ∧ jsTrim s = s) ∧
    (jsTrim text = [] → splitIntoSentences text = []) :=
  ⟨splitIntoSentences_eq_amendedSegment text,
   fun _ hs => splitIntoSentences_mem hs,
   fun h => splitIntoSentences_ws_nil h⟩

/-- C4 amended witness: the heuristic agreement evaluated at the decimal
input, a concrete membership instance, and a whitespace-only instance. -/
theorem claim_C4_witness :
    (splitIntoSentences ("3.14".toList) = amendedSegment ("3.14".toList) ∧
      amendedSegment ("3.14".toList) = ["3.".toList, "14".toList]) ∧
    ("A.".toList ∈ splitIntoSentences ("A. B".toList) ∧
      ("A.".toList ≠ [] ∧ jsTrim ("A.".toList) = "A.".toList)) ∧
    (jsTrim ("  ".toList) = [] ∧ splitIntoSentences ("  ".toList) = []) :=
  ⟨⟨(claim_C4_amended ("3.14".toList)).1, by decide⟩,
   ⟨by decide, (claim_C4_amended ("A. B".toList)).2.1 _ (by decide)⟩,
   ⟨by decide, (claim_C4_amended ("  ".toList)).2.2 (by decide)⟩⟩
